import Mathlib

/-!
Verification development for the `mirro` file-editing tool.

The tool (`src/mirro/main.py`) lets a user edit a file through an external
editor and, when the edited content differs from the original, stores a
timestamped backup of the original content before overwriting the target.

We embed the Python source shallowly: the filesystem is an explicit state
(an association list from paths to contents, plus a set of existing
directories and a set of paths on which a write raises an I/O error);
`read_file`, `write_file`, `backup_original` and the editing flow of `main`
become pure Lean functions over that state.  The backup-store operations
that the specification describes but that are absent from the source tree
(header codec, backup-name parsing, restore) are modelled from the spec and
marked as such in their doc comments.
-/

/-- A filesystem state: regular files (path to content), existing
directories, and the set of paths on which a write/mkdir raises. -/
structure FS where
  files : List (String × String)
  dirs : List String
  failing : List String
deriving Repr, DecidableEq

/-- Whether a regular file exists at `p` (Python `path.exists()` on the
paths this program touches). -/
def fileExists (fs : FS) (p : String) : Bool :=
  (fs.files.lookup p).isSome

/-- Whether directory `d` exists. -/
def dirExists (fs : FS) (d : String) : Bool :=
  fs.dirs.contains d

/-- Embeds `read_file` (main.py lines 11-14): returns `""` when the file
does not exist, otherwise the file's decoded text content. -/
def read_file (fs : FS) (p : String) : String :=
  match fs.files.lookup p with
  | none => ""
  | some c => c

/-- Embeds `write_file` / `Path.write_text`: create-or-truncate write. -/
def write_file (fs : FS) (p content : String) : FS :=
  { fs with files := (p, content) :: fs.files.filter (fun kv => kv.1 != p) }

/-- The proper ancestor directories of a path, e.g. for `"a/b/c"` the list
`["a", "a/b"]`. -/
def ancestorDirs (d : String) : List String :=
  let parts := d.splitOn "/"
  (List.range (parts.length - 1)).map
    (fun i => String.intercalate "/" (parts.take (i + 1)))

/-- Embeds `backup_dir.mkdir(parents=True, exist_ok=True)`: the directory
and all intermediate directories come to exist. -/
def mkdirParents (fs : FS) (d : String) : FS :=
  { fs with dirs := d :: ancestorDirs d ++ fs.dirs }

/-- A broken-down UTC time as returned by `time.gmtime()`. -/
structure Tm where
  year : Nat
  month : Nat
  mday : Nat
  hour : Nat
  minute : Nat
  sec : Nat
deriving Repr, DecidableEq

/-- The decimal digit character of `n % 10`. -/
def digitChar (n : Nat) : Char :=
  Char.ofNat (48 + n % 10)

/-- Two-digit zero-padded decimal rendering (`%m`, `%d`, `%H`, `%M`, `%S`
of `time.strftime` for the in-range values `gmtime` produces). -/
def pad2 (n : Nat) : String :=
  ⟨[digitChar (n / 10), digitChar n]⟩

/-- Four-digit zero-padded decimal rendering (`%Y` for current years). -/
def pad4 (n : Nat) : String :=
  ⟨[digitChar (n / 1000), digitChar (n / 100), digitChar (n / 10), digitChar n]⟩

/-- Embeds `time.strftime("%Y%m%dT%H%M%S", t)`: the compact separator-free
timestamp used in backup file names. -/
def strftimeCompact (t : Tm) : String :=
  pad4 t.year ++ pad2 t.month ++ pad2 t.mday ++ "T"
    ++ pad2 t.hour ++ pad2 t.minute ++ pad2 t.sec

/-- Recognizer for the compact timestamp format `YYYYMMDDThhmmss`: exactly
15 characters, a literal `T` at index 8, decimal digits everywhere else. -/
def isCompactTimestamp (s : String) : Bool :=
  match s.data with
  | [y1, y2, y3, y4, mo1, mo2, d1, d2, t, h1, h2, mi1, mi2, s1, s2] =>
    t == 'T' &&
      ([y1, y2, y3, y4, mo1, mo2, d1, d2, h1, h2, mi1, mi2, s1, s2].all Char.isDigit)
  | _ => false

/-- The backup file name built at main.py line 26:
`f"{original_path.name}.orig.{timestamp}.bak"`. -/
def mkBackupName (originalName ts : String) : String :=
  originalName ++ ".orig." ++ ts ++ ".bak"

/-- The full path of the backup file written for `originalName` at time
`now` into `backupDir`. -/
def backupPathOf (backupDir originalName : String) (now : Tm) : String :=
  backupDir ++ "/" ++ mkBackupName originalName (strftimeCompact now)

/-- Result of `backup_original`: the filesystem afterwards and the path of
the written file, or `none` when an I/O error was raised. -/
structure BackupResult where
  fs : FS
  path : Option String
deriving Repr, DecidableEq

/-- Embeds `backup_original` (main.py lines 21-29): ensure the backup
directory exists, format the current UTC time, and write the original
content verbatim under `<name>.orig.<timestamp>.bak`.  `now` stands for
the impure `time.gmtime()` call; a path in `fs.failing` makes the
corresponding mkdir/write raise, mirroring an I/O failure. -/
def backup_original (fs : FS) (originalName content backupDir : String)
    (now : Tm) : BackupResult :=
  if fs.failing.contains backupDir then
    ⟨fs, none⟩
  else
    let fs1 := mkdirParents fs backupDir
    let bpath := backupPathOf backupDir originalName now
    if fs.failing.contains bpath then
      ⟨fs1, none⟩
    else
      ⟨write_file fs1 bpath content, some bpath⟩

/-- Observable events of an editing session, in order of occurrence. -/
inductive Ev where
  | editorLaunched : Ev
  | wroteBackup : String → Ev
  | wroteTarget : Ev
deriving Repr, DecidableEq

/-- Result of one run of `main`'s editing flow: the filesystem afterwards,
the Python return value (`some 1` or `none` for an implicit `None`),
whether an uncaught exception aborted the run, the printed lines, and the
event trace. -/
structure MainResult where
  fs : FS
  ret : Option Nat
  raised : Bool
  output : List String
  events : List Ev
deriving Repr, DecidableEq

/-- The condition under which `main`'s permission preflight (lines 56-63)
lets the run proceed: a writable existing target, or a writable parent for
a target yet to be created. -/
def permissionOk (fs : FS) (writable : String → Bool)
    (target parent : String) : Bool :=
  if fileExists fs target then writable target else writable parent

/-- Embeds the editing flow of `main` (main.py lines 52-91) for a resolved
target `parent ++ "/" ++ base`.  `writable` stands for `os.access(·, W_OK)`;
`editor` maps the temp file's seeded content to the content read back after
the editor subprocess returns (the temp file lives outside the modelled
filesystem); `now` stands for `time.gmtime()` at backup time. -/
def mirroMain (fs : FS) (writable : String → Bool) (parent base : String)
    (editor : String → String) (backupDir : String) (now : Tm) : MainResult :=
  let target := parent ++ "/" ++ base
  if fileExists fs target && !writable target then
    ⟨fs, some 1, false, ["Need elevated privileges to open " ++ target], []⟩
  else if !fileExists fs target && !writable parent then
    ⟨fs, some 1, false, ["Need elevated privileges to create " ++ target], []⟩
  else
    let original := read_file fs target
    let edited := editor original
    if edited = original then
      ⟨fs, none, false, ["file hasn't changed"], [Ev.editorLaunched]⟩
    else
      let br := backup_original fs base original backupDir now
      match br.path with
      | none => ⟨br.fs, none, true, [], [Ev.editorLaunched]⟩
      | some bpath =>
          ⟨write_file br.fs target edited, none, false,
            ["file changed; original backed up at " ++ bpath],
            [Ev.editorLaunched, Ev.wroteBackup bpath, Ev.wroteTarget]⟩

/-! ### Header codec (spec §4.1, §6)

The header codec and the restore/naming operations are referenced by the
repository's tests but their code is not under `src/`; the definitions
below are modelled from the specification's words.  The codec works on
lines; we implement line splitting/joining on `List Char` so that its
properties are plain list inductions. -/

/-- Split a character list at every newline; always returns at least one
(possibly empty) line. -/
def splitLines : List Char → List (List Char)
  | [] => [[]]
  | c :: rest =>
    match splitLines rest with
    | [] => [[]]
    | l :: ls => if c = '\n' then [] :: l :: ls else (c :: l) :: ls

/-- Join lines back with single newlines; left inverse of `splitLines`. -/
def joinLines : List (List Char) → List Char
  | [] => []
  | [l] => l
  | l :: l' :: ls => l ++ '\n' :: joinLines (l' :: ls)

/-- The fixed delimiter line of the backup header (spec §6): a horizontal
rule of 53 dashes. -/
def headerDelim : String :=
  ⟨List.replicate 53 '-'⟩

/-- The producer marker line of the header. -/
def markerLine : String := "mirro backup"

/-- The instruction line of the header. -/
def instructionLine : String :=
  "Delete this header if you want to restore the file manually"

/-- Modelled from the spec: `encodeHeader` of the Header Codec, absent from
`src/`.  Produces the start delimiter line, the producer marker line, the
original-file line, the human-readable timestamp line, the instruction
line, the end delimiter line, one blank line, then `body` verbatim
(spec §4.1, §6). -/
def encodeHeader (originalFileIdentifier timestampDisplay body : String) : String :=
  headerDelim ++ "\n" ++ markerLine ++ "\n"
    ++ "Original file: " ++ originalFileIdentifier ++ "\n"
    ++ "Timestamp: " ++ timestampDisplay ++ "\n"
    ++ instructionLine ++ "\n"
    ++ headerDelim ++ "\n" ++ "\n" ++ body

/-- Scan the lines after the start delimiter for the first end-delimiter
line followed by a blank line; return the lines after that blank line. -/
def dropHeaderTail : List (List Char) → Option (List (List Char))
  | a :: b :: rest =>
    if a = headerDelim.data ∧ b = [] then some rest
    else dropHeaderTail (b :: rest)
  | _ => none

/-- Modelled from the spec: `stripHeader` of the Header Codec, absent from
`src/`.  If the text begins with the start-delimiter line followed
eventually by the end-delimiter line and a blank line, returns everything
after that blank line unchanged; otherwise returns the text unchanged
(spec §4.1).  A file beginning with `#!` is untouched since its first line
is not the delimiter. -/
def stripHeader (text : String) : String :=
  match splitLines text.data with
  | [] => text
  | first :: rest =>
    if first = headerDelim.data then
      match dropHeaderTail rest with
      | some tail => ⟨joinLines tail⟩
      | none => text
    else text

/-! ### Backup naming and restore (spec §4.2, §4.3) -/

/-- Split a character list around the first occurrence of the marker
`.orig.`; `none` when the marker is absent. -/
def splitFirstMarker (marker : List Char) : List Char → Option (List Char × List Char)
  | [] => none
  | c :: rest =>
    if marker.isPrefixOf (c :: rest) then
      some ([], (c :: rest).drop marker.length)
    else
      match splitFirstMarker marker rest with
      | none => none
      | some (pre, post) => some (c :: pre, post)

/-- Modelled from the spec: `parseBackupName` of Backup Naming, absent from
`src/`.  Splits on the literal marker `.orig.`; everything before is the
original name, everything after (stopping at the next `.` if a trailing
suffix exists) is the compact timestamp; `none` when the marker is absent
(spec §4.2). -/
def parseBackupName (fileName : String) : Option (String × String) :=
  match splitFirstMarker ".orig.".data fileName.data with
  | none => none
  | some (pre, post) => some (⟨pre⟩, ⟨post.takeWhile (fun c => c != '.')⟩)

/-- One entry of the backup directory as observed at listing time: file
name, modification time, stored content. -/
structure BackupFile where
  name : String
  mtime : Nat
  content : String
deriving Repr, DecidableEq

/-- Whether a directory entry is a recognized backup of the file whose base
name is `base`. -/
def matchesTarget (base : String) (f : BackupFile) : Bool :=
  match parseBackupName f.name with
  | some (orig, _) => orig == base
  | none => false

/-- Fold selecting the entry with the greatest modification time; on a tie
the earlier-listed entry is kept, a deterministic tie-break. -/
def pickBest : BackupFile → List BackupFile → BackupFile
  | best, [] => best
  | best, f :: rest => pickBest (if best.mtime < f.mtime then f else best) rest

/-- Modelled from the spec: the selection-and-strip core of `restoreLast`
of the Backup Store, absent from `src/`.  Among the entries whose parsed
original name equals the target's base name, selects the one with the
greatest modification time and strips its header (spec §4.3). -/
def restoreLast (base : String) (dir : List BackupFile) :
    Option (BackupFile × String) :=
  match dir.filter (matchesTarget base) with
  | [] => none
  | f :: rest =>
    let best := pickBest f rest
    some (best, stripHeader best.content)

/-- Modelled from the spec: `restoreLast` including the final write of the
stripped content to the target path, overwriting it (spec §4.3). -/
def restoreLastWrite (fs : FS) (target base : String)
    (dir : List BackupFile) : Option FS :=
  match restoreLast base dir with
  | none => none
  | some (_, content) => some (write_file fs target content)

/-! ### Basic filesystem lemmas -/

theorem files_mkdirParents (fs : FS) (d : String) :
    (mkdirParents fs d).files = fs.files := rfl

theorem read_file_write_self (fs : FS) (p c : String) :
    read_file (write_file fs p c) p = c := by
  simp [read_file, write_file, List.lookup_cons]

theorem lookup_filter_ne (l : List (String × String)) (p q : String)
    (h : q ≠ p) :
    (l.filter (fun kv => kv.1 != p)).lookup q = l.lookup q := by
  induction l with
  | nil => rfl
  | cons kv t ih =>
    obtain ⟨k, v⟩ := kv
    by_cases hk : k = p
    · subst hk
      have hq : (q == k) = false := beq_false_of_ne h
      simp [List.filter_cons, List.lookup_cons, hq, ih]
    · have hk2 : (k != p) = true := by simp [bne_iff_ne, hk]
      simp only [List.filter_cons, hk2, if_pos]
      cases hq : q == k with
      | true => simp [List.lookup_cons, hq]
      | false => simp [List.lookup_cons, hq, ih]

theorem read_file_write_other (fs : FS) (p c q : String) (h : q ≠ p) :
    read_file (write_file fs p c) q = read_file fs q := by
  have hq : (q == p) = false := beq_false_of_ne h
  simp [read_file, write_file, List.lookup_cons, hq, lookup_filter_ne _ _ _ h]

theorem lookup_none_of_not_exists (fs : FS) (p : String)
    (h : fileExists fs p = false) : fs.files.lookup p = none := by
  unfold fileExists at h
  cases hl : fs.files.lookup p with
  | none => rfl
  | some c => rw [hl] at h; simp at h

theorem filter_keys_ne_of_lookup_none (l : List (String × String)) (p : String)
    (h : l.lookup p = none) : l.filter (fun kv => kv.1 != p) = l := by
  induction l with
  | nil => rfl
  | cons kv t ih =>
    obtain ⟨k, v⟩ := kv
    rw [List.lookup_cons] at h
    cases hq : p == k with
    | true => rw [hq] at h; simp at h
    | false =>
      rw [hq] at h
      have hk : (k != p) = true := by
        simp only [bne_iff_ne, ne_eq]
        intro he
        subst he
        simp at hq
      simp [List.filter_cons, hk, ih h]

theorem read_file_files_eq (fs fs' : FS) (p : String)
    (h : fs.files = fs'.files) : read_file fs p = read_file fs' p := by
  unfold read_file
  rw [h]

/-- File missing means the read returns the empty string. -/
theorem read_file_of_not_exists (fs : FS) (p : String)
    (h : fileExists fs p = false) : read_file fs p = "" := by
  unfold read_file
  rw [lookup_none_of_not_exists fs p h]

/-! ### Claim C8: whole-file read -/

/-- Claim C8: for every path `p`, `read_file` returns the empty string when
the file at `p` does not exist, and the file's decoded text content when
it does. -/
theorem read_file_missing_or_content (fs : FS) (p c : String) :
    (fileExists fs p = false → read_file fs p = "") ∧
    (fs.files.lookup p = some c → read_file fs p = c) := by
  refine ⟨read_file_of_not_exists fs p, ?_⟩
  intro h
  unfold read_file
  rw [h]

/-- Witness for C8 on a concrete filesystem holding one file. -/
theorem read_file_missing_or_content_witness :
    read_file ⟨[("a", "x")], [], []⟩ "b" = "" ∧
    read_file ⟨[("a", "x")], [], []⟩ "a" = "x" :=
  ⟨(read_file_missing_or_content ⟨[("a", "x")], [], []⟩ "b" "x").1 (by decide),
   (read_file_missing_or_content ⟨[("a", "x")], [], []⟩ "a" "x").2 (by decide)⟩

/-! ### Claim C9: permission preflight -/

/-- Claim C9: if the target exists but is not writable, or does not exist
and its parent is not writable, `main` returns 1 and terminates before
launching the editor or touching any file: the filesystem is unchanged and
the event trace is empty. -/
theorem mirroMain_permission_denied (fs : FS) (w : String → Bool)
    (parent base : String) (editor : String → String) (bdir : String)
    (now : Tm) :
    (fileExists fs (parent ++ "/" ++ base) = true →
      w (parent ++ "/" ++ base) = false →
      mirroMain fs w parent base editor bdir now =
        ⟨fs, some 1, false,
          ["Need elevated privileges to open " ++ (parent ++ "/" ++ base)],
          []⟩) ∧
    (fileExists fs (parent ++ "/" ++ base) = false →
      w parent = false →
      mirroMain fs w parent base editor bdir now =
        ⟨fs, some 1, false,
          ["Need elevated privileges to create " ++ (parent ++ "/" ++ base)],
          []⟩) := by
  constructor
  · intro h1 h2
    simp [mirroMain, h1, h2]
  · intro h1 h2
    simp [mirroMain, h1, h2]

/-- Witness for C9: a concrete unwritable existing target. -/
theorem mirroMain_permission_denied_witness :
    mirroMain ⟨[("d/f", "x")], [], []⟩ (fun _ => false) "d" "f" id "bk"
        ⟨2023, 1, 2, 3, 4, 5⟩ =
      ⟨⟨[("d/f", "x")], [], []⟩, some 1, false,
        ["Need elevated privileges to open d/f"], []⟩ :=
  (mirroMain_permission_denied ⟨[("d/f", "x")], [], []⟩ (fun _ => false)
      "d" "f" id "bk" ⟨2023, 1, 2, 3, 4, 5⟩).1 (by decide) rfl

/-! ### Claim C10: new target, empty edit result -/

/-- Claim C10: when the target does not exist and the content read back
after the editor is empty (equal to the empty original), `main` reports
that the file hasn't changed and the target file still does not exist
afterwards: no empty file materializes. -/
theorem mirroMain_new_file_unchanged (fs : FS) (w : String → Bool)
    (parent base : String) (editor : String → String) (bdir : String)
    (now : Tm)
    (hnf : fileExists fs (parent ++ "/" ++ base) = false)
    (hw : w parent = true)
    (hed : editor "" = "") :
    mirroMain fs w parent base editor bdir now =
      ⟨fs, none, false, ["file hasn't changed"], [Ev.editorLaunched]⟩ ∧
    fileExists (mirroMain fs w parent base editor bdir now).fs
      (parent ++ "/" ++ base) = false := by
  have horig : read_file fs (parent ++ "/" ++ base) = "" :=
    read_file_of_not_exists fs _ hnf
  have hmain : mirroMain fs w parent base editor bdir now =
      ⟨fs, none, false, ["file hasn't changed"], [Ev.editorLaunched]⟩ := by
    simp [mirroMain, hnf, hw, horig, hed]
  exact ⟨hmain, by rw [hmain]; exact hnf⟩

/-- Witness for C10: a concrete empty filesystem and an editor that leaves
the empty content alone. -/
theorem mirroMain_new_file_unchanged_witness :
    mirroMain ⟨[], [], []⟩ (fun _ => true) "d" "new.txt" id "bk"
        ⟨2023, 1, 2, 3, 4, 5⟩ =
      ⟨⟨[], [], []⟩, none, false, ["file hasn't changed"],
        [Ev.editorLaunched]⟩ ∧
    fileExists (mirroMain ⟨[], [], []⟩ (fun _ => true) "d" "new.txt" id "bk"
        ⟨2023, 1, 2, 3, 4, 5⟩).fs ("d" ++ "/" ++ "new.txt") = false :=
  mirroMain_new_file_unchanged ⟨[], [], []⟩ (fun _ => true) "d" "new.txt"
    id "bk" ⟨2023, 1, 2, 3, 4, 5⟩ (by decide) rfl rfl

/-! ### Claim C4: backups only on change -/

/-- Claim C4: in an editing session that passed the permission preflight,
if the content read back after the editor equals the original then no
backup is created, the target is not written, the filesystem is unchanged
and the program reports that the file hasn't changed; a backup write event
occurs only when the edited content differs from the original. -/
theorem mirroMain_unchanged_no_backup (fs : FS) (w : String → Bool)
    (parent base : String) (editor : String → String) (bdir : String)
    (now : Tm)
    (hperm : permissionOk fs w (parent ++ "/" ++ base) parent = true) :
    (editor (read_file fs (parent ++ "/" ++ base)) =
        read_file fs (parent ++ "/" ++ base) →
      mirroMain fs w parent base editor bdir now =
        ⟨fs, none, false, ["file hasn't changed"], [Ev.editorLaunched]⟩) ∧
    (∀ p, Ev.wroteBackup p ∈ (mirroMain fs w parent base editor bdir now).events →
      editor (read_file fs (parent ++ "/" ++ base)) ≠
        read_file fs (parent ++ "/" ++ base)) := by
  unfold permissionOk at hperm
  constructor
  · intro hed
    cases hfe : fileExists fs (parent ++ "/" ++ base) with
    | true =>
      rw [hfe] at hperm
      simp at hperm
      simp [mirroMain, hfe, hperm, hed]
    | false =>
      rw [hfe] at hperm
      simp at hperm
      simp [mirroMain, hfe, hperm, hed]
  · by_cases hed : editor (read_file fs (parent ++ "/" ++ base)) =
        read_file fs (parent ++ "/" ++ base)
    · intro p hp
      cases hfe : fileExists fs (parent ++ "/" ++ base) with
      | true =>
        rw [hfe] at hperm
        simp at hperm
        simp [mirroMain, hfe, hperm, hed] at hp
      | false =>
        rw [hfe] at hperm
        simp at hperm
        simp [mirroMain, hfe, hperm, hed] at hp
    · intro p _
      exact hed

/-- Witness for C4: concrete session whose editor leaves the content
unchanged. -/
theorem mirroMain_unchanged_no_backup_witness :
    mirroMain ⟨[("d/f.txt", "hello")], [], []⟩ (fun _ => true) "d" "f.txt"
        id "bk" ⟨2023, 1, 2, 3, 4, 5⟩ =
      ⟨⟨[("d/f.txt", "hello")], [], []⟩, none, false,
        ["file hasn't changed"], [Ev.editorLaunched]⟩ :=
  (mirroMain_unchanged_no_backup ⟨[("d/f.txt", "hello")], [], []⟩
      (fun _ => true) "d" "f.txt" id "bk" ⟨2023, 1, 2, 3, 4, 5⟩
      (by decide)).1 rfl

/-! ### Claim C7: backup precedes the destructive overwrite -/

theorem backup_original_failed_files (fs : FS) (n c d : String) (t : Tm)
    (h : (backup_original fs n c d t).path = none) :
    (backup_original fs n c d t).fs.files = fs.files := by
  unfold backup_original at h ⊢
  by_cases h1 : d ∈ fs.failing
  · simp [h1]
  · by_cases h2 : backupPathOf d n t ∈ fs.failing
    · simp [h1, h2, files_mkdirParents]
    · simp [h1, h2] at h

theorem backup_original_success (fs : FS) (n c d : String) (t : Tm)
    (p : String) (h : (backup_original fs n c d t).path = some p) :
    p = backupPathOf d n t ∧
    (backup_original fs n c d t).fs = write_file (mkdirParents fs d) p c := by
  unfold backup_original at h ⊢
  by_cases h1 : d ∈ fs.failing
  · simp [h1] at h
  · by_cases h2 : backupPathOf d n t ∈ fs.failing
    · simp [h1, h2] at h
    · simp [h1, h2] at h ⊢
      subst h
      exact ⟨rfl, rfl⟩

/-- Claim C7: in a session that passed the preflight and whose edit changed
the content, the backup of the original content is written before the
target is overwritten: on backup failure the run aborts with the target
(and all files) untouched and no target write event; on success the backup
file holds the original content already in the pre-overwrite state, and the
event trace shows the backup write strictly before the target write. -/
theorem mirroMain_backup_before_overwrite (fs : FS) (w : String → Bool)
    (parent base : String) (editor : String → String) (bdir : String)
    (now : Tm)
    (hperm : permissionOk fs w (parent ++ "/" ++ base) parent = true)
    (hne : editor (read_file fs (parent ++ "/" ++ base)) ≠
      read_file fs (parent ++ "/" ++ base)) :
    ((backup_original fs base (read_file fs (parent ++ "/" ++ base)) bdir now).path = none →
      (mirroMain fs w parent base editor bdir now).raised = true ∧
      (mirroMain fs w parent base editor bdir now).fs.files = fs.files ∧
      read_file (mirroMain fs w parent base editor bdir now).fs
          (parent ++ "/" ++ base) =
        read_file fs (parent ++ "/" ++ base) ∧
      Ev.wroteTarget ∉ (mirroMain fs w parent base editor bdir now).events) ∧
    (∀ p,
      (backup_original fs base (read_file fs (parent ++ "/" ++ base)) bdir now).path = some p →
      read_file (backup_original fs base (read_file fs (parent ++ "/" ++ base)) bdir now).fs p =
        read_file fs (parent ++ "/" ++ base) ∧
      (mirroMain fs w parent base editor bdir now).events =
        [Ev.editorLaunched, Ev.wroteBackup p, Ev.wroteTarget] ∧
      read_file (mirroMain fs w parent base editor bdir now).fs
          (parent ++ "/" ++ base) =
        editor (read_file fs (parent ++ "/" ++ base))) := by
  unfold permissionOk at hperm
  have hred : mirroMain fs w parent base editor bdir now =
      (match (backup_original fs base (read_file fs (parent ++ "/" ++ base)) bdir now).path with
       | none =>
          ⟨(backup_original fs base (read_file fs (parent ++ "/" ++ base)) bdir now).fs,
            none, true, [], [Ev.editorLaunched]⟩
       | some bpath =>
          ⟨write_file
              (backup_original fs base (read_file fs (parent ++ "/" ++ base)) bdir now).fs
              (parent ++ "/" ++ base)
              (editor (read_file fs (parent ++ "/" ++ base))),
            none, false,
            ["file changed; original backed up at " ++ bpath],
            [Ev.editorLaunched, Ev.wroteBackup bpath, Ev.wroteTarget]⟩) := by
    cases hfe : fileExists fs (parent ++ "/" ++ base) with
    | true =>
      rw [hfe] at hperm
      simp at hperm
      simp [mirroMain, hfe, hperm, hne]
    | false =>
      rw [hfe] at hperm
      simp at hperm
      simp [mirroMain, hfe, hperm, hne]
  constructor
  · intro hbp
    rw [hred]
    simp only [hbp]
    have hfiles := backup_original_failed_files fs base
      (read_file fs (parent ++ "/" ++ base)) bdir now hbp
    exact ⟨by trivial, hfiles, read_file_files_eq _ _ _ hfiles, by simp⟩
  · intro p hbp
    obtain ⟨hp, hfs⟩ := backup_original_success fs base
      (read_file fs (parent ++ "/" ++ base)) bdir now p hbp
    rw [hred]
    simp only [hbp]
    refine ⟨?_, by trivial, ?_⟩
    · rw [hfs]
      exact read_file_write_self _ _ _
    · exact read_file_write_self _ _ _

/-- Witness for C7: a concrete session whose backup directory write
raises, so the run aborts with the target untouched. -/
theorem mirroMain_backup_before_overwrite_witness :
    (mirroMain ⟨[("d/f", "old")], [], ["bk"]⟩ (fun _ => true) "d" "f"
        (fun _ => "new") "bk" ⟨2023, 1, 2, 3, 4, 5⟩).raised = true ∧
    (mirroMain ⟨[("d/f", "old")], [], ["bk"]⟩ (fun _ => true) "d" "f"
        (fun _ => "new") "bk" ⟨2023, 1, 2, 3, 4, 5⟩).fs.files =
      [("d/f", "old")] ∧
    read_file (mirroMain ⟨[("d/f", "old")], [], ["bk"]⟩ (fun _ => true) "d" "f"
        (fun _ => "new") "bk" ⟨2023, 1, 2, 3, 4, 5⟩).fs ("d" ++ "/" ++ "f") =
      read_file ⟨[("d/f", "old")], [], ["bk"]⟩ ("d" ++ "/" ++ "f") ∧
    Ev.wroteTarget ∉ (mirroMain ⟨[("d/f", "old")], [], ["bk"]⟩ (fun _ => true)
        "d" "f" (fun _ => "new") "bk" ⟨2023, 1, 2, 3, 4, 5⟩).events :=
  (mirroMain_backup_before_overwrite ⟨[("d/f", "old")], [], ["bk"]⟩
      (fun _ => true) "d" "f" (fun _ => "new") "bk" ⟨2023, 1, 2, 3, 4, 5⟩
      (by decide) (by decide)).1 (by decide)

/-! ### Claim C6: create always writes exactly one new file -/

/-- Claim C6: every non-raising call to `backup_original` ensures the
backup directory exists, writes exactly one new file (the file count grows
by one when the timestamped name is fresh), returns that file's path, and
leaves every other file untouched; there is no no-op path. -/
theorem backup_original_creates (fs : FS) (name content bdir : String)
    (now : Tm)
    (h1 : bdir ∉ fs.failing)
    (h2 : backupPathOf bdir name now ∉ fs.failing)
    (h3 : fileExists fs (backupPathOf bdir name now) = false) :
    (backup_original fs name content bdir now).path =
      some (backupPathOf bdir name now) ∧
    dirExists (backup_original fs name content bdir now).fs bdir = true ∧
    read_file (backup_original fs name content bdir now).fs
      (backupPathOf bdir name now) = content ∧
    (backup_original fs name content bdir now).fs.files.length =
      fs.files.length + 1 ∧
    (∀ q, q ≠ backupPathOf bdir name now →
      read_file (backup_original fs name content bdir now).fs q =
        read_file fs q) := by
  have hred : backup_original fs name content bdir now =
      ⟨write_file (mkdirParents fs bdir) (backupPathOf bdir name now) content,
        some (backupPathOf bdir name now)⟩ := by
    unfold backup_original
    simp [h1, h2]
  rw [hred]
  refine ⟨rfl, ?_, read_file_write_self _ _ _, ?_, ?_⟩
  · simp [dirExists, write_file, mkdirParents]
  · unfold write_file
    simp only [List.length_cons]
    have hm : (mkdirParents fs bdir).files = fs.files := rfl
    rw [hm, filter_keys_ne_of_lookup_none _ _ (lookup_none_of_not_exists fs _ h3)]
  · intro q hq
    rw [read_file_write_other _ _ _ _ hq]
    exact read_file_files_eq _ _ _ rfl

/-- Witness for C6: creating a backup in an empty backup store next to one
unrelated file. -/
theorem backup_original_creates_witness :
    (backup_original ⟨[("keep", "k")], [], []⟩ "a.txt" "ABC" "bk"
        ⟨2023, 1, 2, 3, 4, 5⟩).path =
      some (backupPathOf "bk" "a.txt" ⟨2023, 1, 2, 3, 4, 5⟩) ∧
    dirExists (backup_original ⟨[("keep", "k")], [], []⟩ "a.txt" "ABC" "bk"
        ⟨2023, 1, 2, 3, 4, 5⟩).fs "bk" = true ∧
    read_file (backup_original ⟨[("keep", "k")], [], []⟩ "a.txt" "ABC" "bk"
        ⟨2023, 1, 2, 3, 4, 5⟩).fs
      (backupPathOf "bk" "a.txt" ⟨2023, 1, 2, 3, 4, 5⟩) = "ABC" ∧
    (backup_original ⟨[("keep", "k")], [], []⟩ "a.txt" "ABC" "bk"
        ⟨2023, 1, 2, 3, 4, 5⟩).fs.files.length = 2 ∧
    read_file (backup_original ⟨[("keep", "k")], [], []⟩ "a.txt" "ABC" "bk"
        ⟨2023, 1, 2, 3, 4, 5⟩).fs "keep" = "k" :=
  let h := backup_original_creates ⟨[("keep", "k")], [], []⟩ "a.txt" "ABC"
    "bk" ⟨2023, 1, 2, 3, 4, 5⟩ (by decide) (by decide) (by decide)
  ⟨h.1, h.2.1, h.2.2.1, h.2.2.2.1, h.2.2.2.2 "keep" (by decide)⟩

/-! ### Claim C5: backup file name pattern -/

theorem digitChar_isDigit (n : Nat) : (digitChar n).isDigit = true := by
  have h : n % 10 < 10 := Nat.mod_lt _ (by norm_num)
  unfold digitChar
  set r := n % 10 with hr
  interval_cases r <;> decide

theorem strftimeCompact_data (t : Tm) :
    (strftimeCompact t).data =
      [digitChar (t.year / 1000), digitChar (t.year / 100),
       digitChar (t.year / 10), digitChar t.year,
       digitChar (t.month / 10), digitChar t.month,
       digitChar (t.mday / 10), digitChar t.mday, 'T',
       digitChar (t.hour / 10), digitChar t.hour,
       digitChar (t.minute / 10), digitChar t.minute,
       digitChar (t.sec / 10), digitChar t.sec] := rfl

theorem isCompactTimestamp_strftime (t : Tm) :
    isCompactTimestamp (strftimeCompact t) = true := by
  unfold isCompactTimestamp
  rw [strftimeCompact_data]
  simp [digitChar_isDigit]

/-- Claim C5: the written backup file's name is
`<originalName>.orig.<timestamp>` followed by the tolerated trailing
suffix `.bak`, where the timestamp renders the current UTC time in the
compact separator-free `YYYYMMDDThhmmss` format. -/
theorem backup_original_name_pattern (fs : FS) (name content bdir : String)
    (now : Tm)
    (h1 : bdir ∉ fs.failing)
    (h2 : backupPathOf bdir name now ∉ fs.failing) :
    (backup_original fs name content bdir now).path =
      some (bdir ++ "/" ++ (name ++ ".orig." ++ strftimeCompact now ++ ".bak")) ∧
    isCompactTimestamp (strftimeCompact now) = true := by
  refine ⟨?_, isCompactTimestamp_strftime now⟩
  unfold backup_original
  simp [h1, h2]
  rfl

/-- Witness for C5 at a concrete time. -/
theorem backup_original_name_pattern_witness :
    (backup_original ⟨[], [], []⟩ "a.txt" "ABC" "bk"
        ⟨2023, 1, 2, 3, 4, 5⟩).path = some "bk/a.txt.orig.20230102T030405.bak" ∧
    isCompactTimestamp "20230102T030405" = true :=
  backup_original_name_pattern ⟨[], [], []⟩ "a.txt" "ABC" "bk"
    ⟨2023, 1, 2, 3, 4, 5⟩ (by decide) (by decide)

/-! ### Claim C1: the stored backup content carries no header -/

set_option maxRecDepth 20000 in
/-- Claim C1 fails on the code: `backup_original` stores the original
content verbatim, not wrapped by `encodeHeader`.  At a concrete call the
stored content is exactly `"ABC"`, while the header-wrapped form the claim
(and the repository's own test `test_backup_original`) demands differs
from it. -/
theorem backup_original_stores_raw_content :
    read_file (backup_original ⟨[], [], []⟩ "a.txt" "ABC" "bk"
        ⟨2023, 1, 2, 3, 4, 5⟩).fs "bk/a.txt.orig.20230102T030405.bak" = "ABC" ∧
    encodeHeader "a.txt" "2023-01-02 03:04:05 UTC" "ABC" ≠ "ABC" := by
  constructor
  · decide
  · decide

/-! ### Claim C2: header round-trip -/

theorem splitLines_ne_nil (cs : List Char) : splitLines cs ≠ [] := by
  cases cs with
  | nil => simp [splitLines]
  | cons c rest =>
    unfold splitLines
    cases splitLines rest with
    | nil => simp
    | cons l ls => by_cases h : c = '\n' <;> simp [h]

theorem splitLines_newline_cons (b : List Char) :
    splitLines ('\n' :: b) = [] :: splitLines b := by
  cases hsb : splitLines b with
  | nil => exact absurd hsb (splitLines_ne_nil b)
  | cons l ls =>
    simp only [splitLines]
    rw [hsb]
    simp

theorem splitLines_append_newline (a b : List Char) (h : '\n' ∉ a) :
    splitLines (a ++ '\n' :: b) = a :: splitLines b := by
  induction a with
  | nil => simpa using splitLines_newline_cons b
  | cons c a ih =>
    have hc : c ≠ '\n' := fun hh => h (by simp [hh])
    have ha : '\n' ∉ a := fun hm => h (List.mem_cons_of_mem _ hm)
    show splitLines (c :: (a ++ '\n' :: b)) = (c :: a) :: splitLines b
    simp only [splitLines]
    rw [ih ha]
    simp [hc]

theorem joinLines_splitLines (cs : List Char) :
    joinLines (splitLines cs) = cs := by
  induction cs with
  | nil => rfl
  | cons c rest ih =>
    simp only [splitLines]
    cases hsr : splitLines rest with
    | nil => exact absurd hsr (splitLines_ne_nil rest)
    | cons l ls =>
      rw [hsr] at ih
      by_cases hc : c = '\n'
      · subst hc
        simp [joinLines, ih]
      · simp only [if_neg hc]
        cases ls with
        | nil =>
          simp [joinLines] at ih ⊢
          rw [ih]
        | cons l2 ls2 =>
          simp [joinLines] at ih ⊢
          rw [← ih]

theorem splitLines_encodeHeader (name ts body : String)
    (hn : '\n' ∉ name.data) (ht : '\n' ∉ ts.data) :
    splitLines (encodeHeader name ts body).data =
      headerDelim.data :: markerLine.data
        :: ("Original file: " ++ name).data
        :: ("Timestamp: " ++ ts).data
        :: instructionLine.data
        :: headerDelim.data :: [] :: splitLines body.data := by
  have hnl : "\n".data = ['\n'] := rfl
  have hdata : (encodeHeader name ts body).data =
      headerDelim.data ++ '\n' :: (markerLine.data ++ '\n' ::
        (("Original file: " ++ name).data ++ '\n' ::
          (("Timestamp: " ++ ts).data ++ '\n' ::
            (instructionLine.data ++ '\n' ::
              (headerDelim.data ++ '\n' :: ('\n' :: body.data)))))) := by
    simp [encodeHeader, String.data_append, hnl]
  have hOF : '\n' ∉ ("Original file: " ++ name).data := by
    rw [String.data_append]
    intro hmem
    rcases List.mem_append.1 hmem with hmem | hmem
    · exact absurd hmem (by decide)
    · exact hn hmem
  have hTS : '\n' ∉ ("Timestamp: " ++ ts).data := by
    rw [String.data_append]
    intro hmem
    rcases List.mem_append.1 hmem with hmem | hmem
    · exact absurd hmem (by decide)
    · exact ht hmem
  rw [hdata]
  rw [splitLines_append_newline _ _ (by decide)]
  rw [splitLines_append_newline _ _ (by decide)]
  rw [splitLines_append_newline _ _ hOF]
  rw [splitLines_append_newline _ _ hTS]
  rw [splitLines_append_newline _ _ (by decide)]
  rw [splitLines_append_newline _ _ (by decide)]
  rw [splitLines_newline_cons]

theorem dropHeaderTail_header (name ts : String) (tail : List (List Char)) :
    dropHeaderTail (markerLine.data
        :: ("Original file: " ++ name).data
        :: ("Timestamp: " ++ ts).data
        :: instructionLine.data
        :: headerDelim.data :: [] :: tail) = some tail := by
  have h1 : ¬(markerLine.data = headerDelim.data ∧
      ("Original file: " ++ name).data = []) :=
    fun hc => absurd hc.1 (by decide)
  have h2 : ¬(("Original file: " ++ name).data = headerDelim.data ∧
      ("Timestamp: " ++ ts).data = []) := by
    intro hc
    have hts := hc.2
    rw [String.data_append] at hts
    have hlit : "Timestamp: ".data = 'T' :: "imestamp: ".data := rfl
    rw [hlit] at hts
    simp at hts
  have h3 : ¬(("Timestamp: " ++ ts).data = headerDelim.data ∧
      instructionLine.data = []) :=
    fun hc => absurd hc.2 (by decide)
  have h4 : ¬(instructionLine.data = headerDelim.data ∧
      headerDelim.data = []) :=
    fun hc => absurd hc.1 (by decide)
  unfold dropHeaderTail
  rw [if_neg h1]
  unfold dropHeaderTail
  rw [if_neg h2]
  unfold dropHeaderTail
  rw [if_neg h3]
  unfold dropHeaderTail
  rw [if_neg h4]
  unfold dropHeaderTail
  rw [if_pos ⟨rfl, rfl⟩]

/-- Claim C2, amended: for all `name` and `ts` containing no newline
character and every string `body`, stripping the header from the encoded
form recovers `body` exactly. -/
theorem stripHeader_encodeHeader (name ts body : String)
    (hn : '\n' ∉ name.data) (ht : '\n' ∉ ts.data) :
    stripHeader (encodeHeader name ts body) = body := by
  unfold stripHeader
  rw [splitLines_encodeHeader name ts body hn ht]
  simp only [dropHeaderTail_header]
  rw [joinLines_splitLines]
  simp

/-- Witness for C2 on a concrete file name, timestamp and two-line body. -/
theorem stripHeader_encodeHeader_witness :
    stripHeader (encodeHeader "a.txt" "2023-01-02 03:04:05 UTC"
      "hello\nworld") = "hello\nworld" :=
  stripHeader_encodeHeader "a.txt" "2023-01-02 03:04:05 UTC" "hello\nworld"
    (by decide) (by decide)

set_option maxRecDepth 20000 in
/-- Counterexample to C2 as stated (quantifying over all `name`): a name
containing a newline and a delimiter line makes the structural scan stop
early, so the round-trip fails. -/
theorem stripHeader_encodeHeader_not_universal :
    stripHeader (encodeHeader ("x\n" ++ headerDelim ++ "\n") "t" "B") ≠ "B" := by
  decide

/-! ### Claim C3: restore picks the most recent matching record -/

theorem pickBest_mem (best : BackupFile) (l : List BackupFile) :
    pickBest best l ∈ best :: l := by
  induction l generalizing best with
  | nil => simp [pickBest]
  | cons f rest ih =>
    unfold pickBest
    by_cases h : best.mtime < f.mtime
    · simp only [if_pos h]
      have hm := ih f
      simp [List.mem_cons] at hm ⊢
      tauto
    · simp only [if_neg h]
      have hm := ih best
      simp [List.mem_cons] at hm ⊢
      tauto

theorem pickBest_maximal (best : BackupFile) (l : List BackupFile) :
    best.mtime ≤ (pickBest best l).mtime ∧
    ∀ g ∈ l, g.mtime ≤ (pickBest best l).mtime := by
  induction l generalizing best with
  | nil => exact ⟨le_refl _, by simp⟩
  | cons f rest ih =>
    unfold pickBest
    by_cases h : best.mtime < f.mtime
    · simp only [if_pos h]
      obtain ⟨h1, h2⟩ := ih f
      refine ⟨le_trans (le_of_lt h) h1, ?_⟩
      intro g hg
      rcases List.mem_cons.1 hg with rfl | hg
      · exact h1
      · exact h2 g hg
    · simp only [if_neg h]
      obtain ⟨h1, h2⟩ := ih best
      refine ⟨h1, ?_⟩
      intro g hg
      rcases List.mem_cons.1 hg with rfl | hg
      · exact le_trans (Nat.le_of_not_lt h) h1
      · exact h2 g hg

/-- Claim C3: whenever `restoreLast` selects a record, that record is a
directory entry whose parsed original name matches the target's base name,
its modification time is maximal among all matching entries, the returned
content is its stripped content, and the final write leaves exactly that
stripped content at the target path. -/
theorem restoreLast_selects_most_recent (fs : FS) (target base : String)
    (dir : List BackupFile) (best : BackupFile) (out : String)
    (h : restoreLast base dir = some (best, out)) :
    best ∈ dir ∧
    matchesTarget base best = true ∧
    (∀ g ∈ dir, matchesTarget base g = true → g.mtime ≤ best.mtime) ∧
    out = stripHeader best.content ∧
    (∀ fs', restoreLastWrite fs target base dir = some fs' →
      read_file fs' target = stripHeader best.content) := by
  unfold restoreLast at h
  cases hf : dir.filter (matchesTarget base) with
  | nil => rw [hf] at h; simp at h
  | cons f rest =>
    rw [hf] at h
    simp at h
    obtain ⟨h1, h2⟩ := h
    subst h1
    have hmem : pickBest f rest ∈ f :: rest := pickBest_mem f rest
    rw [← hf] at hmem
    have hmem2 := List.mem_filter.1 hmem
    refine ⟨hmem2.1, hmem2.2, ?_, h2.symm, ?_⟩
    · intro g hg hmg
      have hgf : g ∈ dir.filter (matchesTarget base) :=
        List.mem_filter.2 ⟨hg, hmg⟩
      rw [hf] at hgf
      rcases List.mem_cons.1 hgf with rfl | hg2
      · exact (pickBest_maximal g rest).1
      · exact (pickBest_maximal f rest).2 g hg2
    · intro fs' h'
      unfold restoreLastWrite restoreLast at h'
      rw [hf] at h'
      simp at h'
      subst h'
      exact read_file_write_self _ _ _

/-- Witness for C3: the spec's own example, an older and a newer backup of
`t.txt`; the newer one is selected and its content lands at the target. -/
theorem restoreLast_selects_most_recent_witness :
    (⟨"t.txt.orig.2021", 9, "old2"⟩ : BackupFile) ∈
      [(⟨"t.txt.orig.2020", 5, "old1"⟩ : BackupFile),
       ⟨"t.txt.orig.2021", 9, "old2"⟩] ∧
    matchesTarget "t.txt" ⟨"t.txt.orig.2021", 9, "old2"⟩ = true ∧
    (⟨"t.txt.orig.2020", 5, "old1"⟩ : BackupFile).mtime ≤
      (⟨"t.txt.orig.2021", 9, "old2"⟩ : BackupFile).mtime ∧
    "old2" = stripHeader "old2" ∧
    read_file (write_file ⟨[], [], []⟩ "w/t.txt" "old2") "w/t.txt" =
      stripHeader "old2" :=
  let h := restoreLast_selects_most_recent ⟨[], [], []⟩ "w/t.txt" "t.txt"
    [⟨"t.txt.orig.2020", 5, "old1"⟩, ⟨"t.txt.orig.2021", 9, "old2"⟩]
    ⟨"t.txt.orig.2021", 9, "old2"⟩ "old2" (by decide)
  ⟨h.1, h.2.1,
   h.2.2.1 ⟨"t.txt.orig.2020", 5, "old1"⟩ (by decide) (by decide),
   h.2.2.2.1,
   h.2.2.2.2 (write_file ⟨[], [], []⟩ "w/t.txt" "old2") (by decide)⟩
